import Mathlib

/-!
Verification development for the SkyHetu language runtime
(bytecode compiler, stack VM, mark-sweep heap, causality log).

The definitions below are a shallow embedding of the Rust sources:
`src/value.rs`, `src/causality.rs`, `src/gc.rs`, `src/vm.rs` and
`src/compiler.rs`.  Pure functions become Lean functions; the interior
mutability of the runtime (Vec / HashMap / RefCell under a single thread)
becomes explicit state passing over lists and association lists; code that
can fail returns `Except` (runtime errors) or `Option` (Rust panics).

Numbers: the source uses IEEE-754 doubles (`f64`).  They are modelled by
`SkyNum`, a rational together with a distinguished `nan` value.  The model
keeps the behaviours the claims depend on — `==` comparisons against `0.0`
(false for NaN), the NaN result of `x % 0.0`, and the saturating
`as usize` cast that sends negative and NaN inputs to `0` — while
idealising finite arithmetic as exact (rounding and the infinities play no
role in any statement proved here).
-/

namespace SkyHetu

/-- Model of an `f64`: a finite (exact) rational or NaN.  -/
inductive SkyNum where
  | finite (q : ℚ)
  | nan
  deriving DecidableEq, Repr

/-- Truncation toward zero of a rational, matching Rust's `f64::trunc`
on exactly-represented values. -/
def ratTrunc (q : ℚ) : ℤ :=
  if 0 ≤ q then Int.ofNat (q.num.toNat / q.den)
  else - Int.ofNat ((-q.num).toNat / q.den)

/-- The IEEE `==` comparison (`PartialEq` on `f64`): NaN compares unequal
to everything.  -/
def SkyNum.ieeeEq : SkyNum → SkyNum → Bool
  | .finite a, .finite b => a = b
  | _, _ => false

/-- `f64` division as used by the VM's `Divide` arm.  The arm checks
`y == 0.0` before dividing, so the `y = 0` case of this model (where IEEE
would produce an infinity, absent from the model) is unreachable in every
statement below. -/
def SkyNum.fdiv : SkyNum → SkyNum → SkyNum
  | .finite x, .finite y => if y = 0 then .nan else .finite (x / y)
  | _, _ => .nan

/-- Rust's `%` on `f64`: the IEEE remainder `a - b * trunc(a / b)`, which
is NaN whenever the divisor is zero or either operand is NaN. -/
def SkyNum.frem : SkyNum → SkyNum → SkyNum
  | .finite x, .finite y =>
      if y = 0 then .nan else .finite (x - y * ratTrunc (x / y))
  | _, _ => .nan

/-- Rust's saturating `as usize` cast on `f64` (used by `Index`, `substr`,
string repetition): negative values and NaN go to `0`, non-negative values
truncate toward zero.  (Saturation at `usize::MAX` is irrelevant here and
left unbounded.) -/
def SkyNum.toUsize : SkyNum → Nat
  | .finite q => if q < 0 then 0 else (ratTrunc q).toNat
  | .nan => 0

/-- Alias for the core string type, needed inside the declaration of
`Value`, where the constructor name `Value.String` shadows it. -/
abbrev Text := String

/-- Alias for the core boolean type, needed inside the declaration of
`Value`, where the constructor name `Value.Bool` shadows it. -/
abbrev Boolean := Bool

/-- `Value` from `src/value.rs`.  Heap variants carry the handle (slot
index) into the heap.  `NativeFunction` keeps the observable fields of
`NativeFn` (name and optional arity); its function pointer is represented
by the dedicated step functions below. -/
inductive Value where
  | Number (n : SkyNum)
  | String (s : Text)
  | Bool (b : Boolean)
  | Nil
  | Function (h : Nat)
  | Closure (h : Nat)
  | NativeFunction (name : Text) (arity : Option Nat)
  | Array (h : Nat)
  | Class (h : Nat)
  | Instance (h : Nat)
  | BoundMethod (h : Nat)
  deriving DecidableEq, Repr

/-- `Value::type_name`. -/
def Value.type_name : Value → Text
  | .Number _ => "number"
  | .String _ => "string"
  | .Bool _ => "bool"
  | .Nil => "nil"
  | .Function _ => "function"
  | .Closure _ => "closure"
  | .NativeFunction _ _ => "native function"
  | .Array _ => "array"
  | .Class _ => "class"
  | .Instance _ => "instance"
  | .BoundMethod _ => "method"

/-- `Value::children`: the heap handles directly referenced by a value. -/
def Value.children : Value → List Nat
  | .Function h => [h]
  | .Closure h => [h]
  | .Array h => [h]
  | .Class h => [h]
  | .Instance h => [h]
  | .BoundMethod h => [h]
  | _ => []

/-- `ErrorKind` from `src/error.rs`. -/
inductive ErrorKind where
  | UnexpectedCharacter (c : Char)
  | UnterminatedString
  | InvalidNumber (s : String)
  | UnexpectedToken (s : String)
  | ExpectedToken (expected got : String)
  | ExpectedExpression
  | ExpectedStatement
  | InvalidAssignmentTarget
  | InvalidAssignment
  | UndefinedVariable (name : String)
  | UndefinedProperty (name : String)
  | TypeMismatch (expected got : String)
  | DivisionByZero
  | NotCallable
  | WrongArity (expected got : Nat)
  | ImmutableVariable (name : String)
  | BreakOutsideLoop
  | ContinueOutsideLoop
  | ReturnOutsideFunction
  | StackOverflow
  | NoStateHistory (name : String)
  | RuntimeError (msg : String)
  | ModuleNotFound (s : String)
  deriving DecidableEq, Repr

/-! ### Association lists

The runtime's `HashMap`s (globals, intern table, per-variable event index,
instance fields, class methods) are modelled as association lists with
HashMap get/insert semantics; iteration order is never observable in the
claims below. -/

/-- `HashMap::get`. -/
def assocLookup {α : Type} : List (String × α) → String → Option α
  | [], _ => none
  | (k', v) :: rest, k => if k' = k then some v else assocLookup rest k

/-- `HashMap::insert` (replaces an existing entry for the key). -/
def assocInsert {α : Type} : List (String × α) → String → α → List (String × α)
  | [], k, v => [(k, v)]
  | (k', v') :: rest, k, v =>
      if k' = k then (k', v) :: rest else (k', v') :: assocInsert rest k v

/-- `map.entry(k).or_default().push(i)` on a `HashMap<String, Vec<usize>>`. -/
def assocPush : List (String × List Nat) → String → Nat → List (String × List Nat)
  | [], k, i => [(k, [i])]
  | (k', v) :: rest, k, i =>
      if k' = k then (k', v ++ [i]) :: rest else (k', v) :: assocPush rest k i

/-! ### Causality log (`src/causality.rs`) -/

/-- `MutationEvent`.  The Rust field `variable` is renamed `var_name`
because `variable` is a Lean keyword. -/
structure MutationEvent where
  id : Nat
  var_name : String
  old_value : Value
  new_value : Value
  timestamp : Nat
  location : Option String
  deriving DecidableEq, Repr

/-- `CausalityLog` (the unused `_start : Option<Instant>` field is
omitted). -/
structure CausalityLog where
  events : List MutationEvent
  by_variable : List (String × List Nat)
  clock : Nat
  next_id : Nat
  deriving DecidableEq, Repr

/-- `CausalityLog::new`. -/
def CausalityLog.new : CausalityLog :=
  { events := [], by_variable := [], clock := 0, next_id := 0 }

/-- `CausalityLog::record_mutation`: bump id and clock, append the event,
index it under its variable name.  Returns the updated log and the event
id. -/
def CausalityLog.record_mutation (log : CausalityLog) (var_name : String)
    (old_value new_value : Value) (location : Option String) :
    CausalityLog × Nat :=
  let id := log.next_id
  let clock := log.clock + 1
  let event : MutationEvent :=
    { id := id, var_name := var_name, old_value := old_value,
      new_value := new_value, timestamp := clock, location := location }
  ({ events := log.events ++ [event],
     by_variable := assocPush log.by_variable var_name id,
     clock := clock,
     next_id := id + 1 }, id)

/-- `CausalityLog::history`: the ids indexed under the name, resolved
against the event store (ids that miss resolve to nothing, as in the
source's `filter_map`). -/
def CausalityLog.history (log : CausalityLog) (var_name : String) :
    List MutationEvent :=
  ((assocLookup log.by_variable var_name).getD []).filterMap
    (fun id => log.events.get? id)

/-- `CausalityLog::current_time`. -/
def CausalityLog.current_time (log : CausalityLog) : Nat := log.clock

/-- The scan loop inside `CausalityLog::value_at`: walk the history in
order, remembering the `new_value` of each event with `timestamp ≤ t`,
and stop (`break`) at the first event with a larger timestamp. -/
def valueAtLoop (t : Nat) : List MutationEvent → Option Value → Option Value
  | [], res => res
  | e :: rest, res =>
      if e.timestamp ≤ t then valueAtLoop t rest (some e.new_value) else res

/-- `CausalityLog::value_at`. -/
def CausalityLog.value_at (log : CausalityLog) (var_name : String) (t : Nat) :
    Option Value :=
  let history := log.history var_name
  if history.isEmpty then none
  else
    match valueAtLoop t history none with
    | some v => some v
    | none =>
        match history.head? with
        | some first =>
            if first.timestamp > t then some first.old_value else none
        | none => none

/-- Modelled from the spec sentence for claim C5 (a reference definition,
not source code): the value after the last event with `timestamp ≤ t`;
if there is none but the history is nonempty with first timestamp
`t' > t`, the first event's old value; otherwise none. -/
def valueAtSpec (log : CausalityLog) (var_name : String) (t : Nat) :
    Option Value :=
  let history := log.history var_name
  match (history.filter (fun e => e.timestamp ≤ t)).getLast? with
  | some e => some e.new_value
  | none =>
      match history.head? with
      | some first =>
          if t < first.timestamp then some first.old_value else none
      | none => none

/-- A causality log built by an arbitrary sequence of `record_mutation`
calls starting from `CausalityLog::new` — exactly the logs reachable at
run time (the VM only ever appends through `record_mutation`). -/
def buildLog (ms : List (String × Value × Value)) : CausalityLog :=
  ms.foldl (fun log m => (log.record_mutation m.1 m.2.1 m.2.2 none).1)
    CausalityLog.new

/-! ### Heap and garbage collector (`src/gc.rs`)

A handle is the slot index into `objects`.  `RefCell` interior mutability
(upvalue states, instance fields) is flattened into plain fields; writes
replace the object in the heap, which is faithful for the single-threaded
runtime.  `bytes_allocated` is carried as an integer so that the
underflow the specification talks about is directly observable (in Rust
it is a `usize` whose subtraction would panic in a debug build and wrap
in release). -/

/-- `UpvalueState` from `src/gc.rs`. -/
inductive UpvalueState where
  | Open (slot : Nat)
  | Closed (v : Value)
  deriving DecidableEq, Repr

/-- `Object` from `src/gc.rs`.  `Object::Function` keeps the fields of
`value::Function` that the collector can see (name, parameters, upvalue
count); the owned chunk is behind an `Rc` and contributes neither
children (`Function::children` returns an empty vector) nor size beyond
the fixed `size_of::<Function>()`. -/
inductive Object where
  | String (s : Text)
  | Function (name : Text) (params : List Text) (upvalue_count : Nat)
  | Array (elems : List Value)
  | Closure (function : Nat) (upvalues : List Nat)
  | Upvalue (st : UpvalueState)
  | Class (name : Text) (methods : List (Text × Nat))
  | Instance (cls : Nat) (fields : List (Text × Value))
  | BoundMethod (receiver : Value) (method : Nat)
  deriving DecidableEq, Repr

/-- `Object::children`. -/
def Object.children : Object → List Nat
  | .String _ => []
  | .Function _ _ _ => []
  | .Array elems => (elems.map Value.children).flatten
  | .Closure f upvalues => f :: upvalues
  | .Upvalue u =>
      match u with
      | .Open _ => []
      | .Closed v => v.children
  | .Class _ methods => methods.map (·.2)
  | .Instance cls fields => cls :: (fields.map (fun p => p.2.children)).flatten
  | .BoundMethod receiver method => receiver.children ++ [method]

/-- The `std::mem::size_of` constants entering `Object::size_bytes`, as
on a 64-bit build.  The development depends only on the additive shape of
`size_bytes` (in particular that each instance field contributes a fixed
positive amount), never on the exact numbers. -/
def sizeOfObject : Nat := 56

/-- `size_of::<value::Function>()`. -/
def sizeOfFunction : Nat := 64

/-- `size_of::<Value>()`. -/
def sizeOfValue : Nat := 56

/-- `size_of::<gc::Closure>()`. -/
def sizeOfClosure : Nat := 32

/-- `size_of::<Handle>()`. -/
def sizeOfHandle : Nat := 8

/-- `size_of::<gc::Upvalue>()`. -/
def sizeOfUpvalue : Nat := 24

/-- `size_of::<gc::Class>()`. -/
def sizeOfClass : Nat := 72

/-- `size_of::<gc::Instance>()`. -/
def sizeOfInstance : Nat := 56

/-- `size_of::<gc::BoundMethod>()`. -/
def sizeOfBoundMethod : Nat := 64

/-- `size_of::<String>()`. -/
def sizeOfString : Nat := 24

/-- `Object::size_bytes`.  Note that it is computed from the object's
*current* contents each time it is called. -/
def Object.size_bytes : Object → Nat
  | .String s => sizeOfObject + s.length
  | .Function _ _ _ => sizeOfObject + sizeOfFunction
  | .Array elems => sizeOfObject + elems.length * sizeOfValue
  | .Closure _ upvalues =>
      sizeOfObject + sizeOfClosure + upvalues.length * sizeOfHandle
  | .Upvalue _ => sizeOfObject + sizeOfUpvalue
  | .Class name methods =>
      sizeOfObject + sizeOfClass + name.length +
        methods.length * (sizeOfString + sizeOfHandle)
  | .Instance _ fields =>
      sizeOfObject + sizeOfInstance +
        fields.length * (sizeOfString + sizeOfValue)
  | .BoundMethod _ _ => sizeOfObject + sizeOfBoundMethod

/-- `Heap`.  `marked` models the `HashSet<usize>`; `free_list` and
`grey_stack` model `Vec`s used as stacks, with the top at the head. -/
structure Heap where
  objects : List (Option Object)
  free_list : List Nat
  marked : List Nat
  grey_stack : List Nat
  interned_strings : List (String × Nat)
  bytes_allocated : Int
  next_gc : Int
  deriving DecidableEq, Repr

/-- `Heap::new`. -/
def Heap.new : Heap :=
  { objects := [], free_list := [], marked := [], grey_stack := [],
    interned_strings := [], bytes_allocated := 0, next_gc := 1024 * 1024 }

/-- `Heap::alloc`: add the object's current size to `bytes_allocated`,
then reuse a free slot if available, else append. -/
def Heap.alloc (h : Heap) (obj : Object) : Heap × Nat :=
  let size := obj.size_bytes
  let h := { h with bytes_allocated := h.bytes_allocated + size }
  match h.free_list with
  | idx :: rest =>
      ({ h with objects := h.objects.set idx (some obj), free_list := rest }, idx)
  | [] => ({ h with objects := h.objects ++ [some obj] }, h.objects.length)

/-- `Heap::alloc_string`: return the interned handle if present, else
allocate and intern. -/
def Heap.alloc_string (h : Heap) (s : String) : Heap × Nat :=
  match assocLookup h.interned_strings s with
  | some handle => (h, handle)
  | none =>
      let res := h.alloc (.String s)
      ({ res.1 with
          interned_strings := assocInsert res.1.interned_strings s res.2 },
       res.2)

/-- `Heap::alloc_array`. -/
def Heap.alloc_array (h : Heap) (elems : List Value) : Heap × Nat :=
  h.alloc (.Array elems)

/-- `Heap::alloc_upvalue`. -/
def Heap.alloc_upvalue (h : Heap) (slot : Nat) : Heap × Nat :=
  h.alloc (.Upvalue (.Open slot))

/-- `Heap::alloc_closure`. -/
def Heap.alloc_closure (h : Heap) (function : Nat) (upvalues : List Nat) :
    Heap × Nat :=
  h.alloc (.Closure function upvalues)

/-- `Heap::alloc_class`. -/
def Heap.alloc_class (h : Heap) (name : String) : Heap × Nat :=
  h.alloc (.Class name [])

/-- `Heap::alloc_instance`. -/
def Heap.alloc_instance (h : Heap) (cls : Nat) : Heap × Nat :=
  h.alloc (.Instance cls [])

/-- `Heap::get_array`. -/
def Heap.get_array (h : Heap) (handle : Nat) : Option (List Value) :=
  match (h.objects.get? handle).getD none with
  | some (.Array elems) => some elems
  | _ => none

/-- `Heap::get_upvalue` (returning the cell's state). -/
def Heap.get_upvalue (h : Heap) (handle : Nat) : Option UpvalueState :=
  match (h.objects.get? handle).getD none with
  | some (.Upvalue u) => some u
  | _ => none

/-- `Heap::get_closure` (function handle and upvalue handles). -/
def Heap.get_closure (h : Heap) (handle : Nat) : Option (Nat × List Nat) :=
  match (h.objects.get? handle).getD none with
  | some (.Closure f upvalues) => some (f, upvalues)
  | _ => none

/-- `Heap::get_instance` (class handle and fields). -/
def Heap.get_instance (h : Heap) (handle : Nat) :
    Option (Nat × List (Text × Value)) :=
  match (h.objects.get? handle).getD none with
  | some (.Instance cls fields) => some (cls, fields)
  | _ => none

/-- `Heap::is_marked`. -/
def Heap.is_marked (h : Heap) (handle : Nat) : Bool :=
  h.marked.contains handle

/-- `Heap::mark`: grey a live, not-yet-marked handle. -/
def Heap.mark (h : Heap) (handle : Nat) : Heap :=
  if h.marked.contains handle then h
  else if ((h.objects.get? handle).getD none).isSome then
    { h with marked := handle :: h.marked, grey_stack := handle :: h.grey_stack }
  else h

/-- One iteration of `Heap::trace_references`: mark the children of a
popped grey handle. -/
def Heap.markChildren (h : Heap) (handle : Nat) : Heap :=
  let children :=
    match (h.objects.get? handle).getD none with
    | some obj => obj.children
    | none => []
  children.foldl Heap.mark h

/-- The `while let Some(handle) = grey_stack.pop()` loop of
`Heap::trace_references`, with explicit fuel.  Each iteration pops one
handle, and a handle enters the grey stack only when freshly marked, so
`grey_stack.length + objects.length` iterations always drain the stack;
the fuel below is an upper bound that makes the recursion structural. -/
def Heap.traceLoop : Nat → Heap → Heap
  | 0, h => h
  | fuel + 1, h =>
      match h.grey_stack with
      | [] => h
      | handle :: rest =>
          Heap.traceLoop fuel (Heap.markChildren { h with grey_stack := rest } handle)

/-- `Heap::trace_references`. -/
def Heap.trace_references (h : Heap) : Heap :=
  Heap.traceLoop (h.grey_stack.length + h.objects.length + 1) h

/-- `Heap::sweep`: free every unmarked occupied slot (subtracting the
object's size *as recomputed now*), retain only marked intern entries,
clear the mark set, and reset the threshold. -/
def Heap.sweep (h : Heap) : Heap :=
  let freedIdxs := (List.range h.objects.length).filter (fun i =>
    !(h.marked.contains i) && ((h.objects.get? i).getD none).isSome)
  let freed_bytes : Nat := (freedIdxs.map (fun i =>
    match (h.objects.get? i).getD none with
    | some obj => obj.size_bytes
    | none => 0)).sum
  let bytes_allocated := h.bytes_allocated - (freed_bytes : Int)
  { h with
    objects := h.objects.enum.map (fun p =>
      if h.marked.contains p.1 then p.2 else none),
    free_list := freedIdxs.reverse ++ h.free_list,
    interned_strings :=
      h.interned_strings.filter (fun p => h.marked.contains p.2),
    bytes_allocated := bytes_allocated,
    marked := [],
    next_gc := max (bytes_allocated * 2) (1024 * 1024) }

/-- The heap half of the VM's `SetProperty` arm:
`instance.fields.borrow_mut().insert(name, value)`.  `bytes_allocated`
is *not* touched.  (The arm has already checked that the receiver is an
`Instance`, so the fallthrough case is unreachable where this is used.) -/
def Heap.set_instance_field (h : Heap) (handle : Nat) (name : String)
    (v : Value) : Heap :=
  match (h.objects.get? handle).getD none with
  | some (.Instance cls fields) =>
      { h with objects :=
          h.objects.set handle (some (.Instance cls (assocInsert fields name v))) }
  | _ => h

/-! ### Virtual machine (`src/vm.rs`)

The value stack is a list with the bottom at index 0 and the top at the
end, so that `stack[frame.slot + slot]` indexing and `push`/`pop` at the
top both translate directly.  Call frames keep the fields the embedded
opcode arms read (`closure`, `slot`); the instruction pointer and the
cached chunk are represented by passing each arm its decoded operands.
A `none` result models a Rust panic (`unwrap` / `expect` / out-of-bounds
indexing); an `Except.error` models a `SkyHetuError` returned to the
host. -/

/-- `Binding` from `src/vm.rs`. -/
structure Binding where
  value : Value
  is_state : Bool
  deriving DecidableEq, Repr

/-- `CallFrame` (the fields read by the embedded arms). -/
structure CallFrame where
  closure : Nat
  slot : Nat
  deriving DecidableEq, Repr

/-- The parts of `VM` the embedded arms touch.  `chunk_constants` is the
flattened constant pools of all registered chunks (the third root set of
`mark_roots`). -/
structure VMState where
  stack : List Value
  frames : List CallFrame
  globals : List (String × Binding)
  causality : CausalityLog
  heap : Heap
  open_upvalues : List Nat
  chunk_constants : List Value
  deriving DecidableEq, Repr

/-- `VM::mark_roots`: mark the children of every stack value, every
global binding's value, and every chunk constant. -/
def VMState.mark_roots (st : VMState) : VMState :=
  let heap := st.stack.foldl (fun h v => v.children.foldl Heap.mark h) st.heap
  let heap := st.globals.foldl
    (fun h p => p.2.value.children.foldl Heap.mark h) heap
  let heap := st.chunk_constants.foldl
    (fun h v => v.children.foldl Heap.mark h) heap
  { st with heap := heap }

/-- `VM::collect_garbage`: mark roots, trace, sweep, then retain only
the open-upvalue handles that `is_marked` reports as marked. -/
def VMState.collect_garbage (st : VMState) : VMState :=
  let st := st.mark_roots
  let heap := st.heap.trace_references
  let heap := heap.sweep
  { st with
    heap := heap
    open_upvalues :=
      st.open_upvalues.filter (fun handle => heap.is_marked handle) }

/-- `VM::capture_upvalue`: reuse the open upvalue already pointing at
`location` if there is one, else allocate a fresh open cell and append
it to the list. -/
def VMState.capture_upvalue (st : VMState) (location : Nat) : VMState × Nat :=
  match st.open_upvalues.find? (fun handle =>
      match st.heap.get_upvalue handle with
      | some (.Open slot) => slot == location
      | _ => false) with
  | some handle => (st, handle)
  | none =>
      let (heap, handle) := st.heap.alloc_upvalue location
      ({ st with heap := heap, open_upvalues := st.open_upvalues ++ [handle] },
       handle)

/-- The `OpCode::SetGlobal` arm, acting on the globals table.  The value
argument is the one the arm reads with `peek(0)` (the stack is left
unchanged by this opcode). -/
def setGlobalStep (globals : List (String × Binding)) (name : String)
    (value : Value) : Except ErrorKind (List (String × Binding)) :=
  match assocLookup globals name with
  | some binding =>
      if !binding.is_state then .error (.ImmutableVariable name)
      else .ok (assocInsert globals name { binding with value := value })
  | none => .error (.UndefinedVariable name)

/-- The `OpCode::Transition` arm (globals), acting on the globals table
and the causality log.  The value argument is the one the arm pops. -/
def transitionStep (globals : List (String × Binding)) (log : CausalityLog)
    (name : String) (new_value : Value) :
    Except ErrorKind (List (String × Binding) × CausalityLog) :=
  match assocLookup globals name with
  | some binding =>
      if !binding.is_state then .error (.ImmutableVariable name)
      else
        let old_value := binding.value
        let log := (log.record_mutation name old_value new_value none).1
        .ok (assocInsert globals name { binding with value := new_value }, log)
  | none => .error (.UndefinedVariable name)

/-- The `OpCode::TransitionLocal` arm: pop the new value, read the old
value from `stack[frame.slot + slot]`, record the mutation under the
name operand, write the slot.  No error path exists; `none` models the
panics of `frames.last().unwrap()` and of out-of-bounds stack access. -/
def VMState.transitionLocalStep (st : VMState) (slot : Nat) (name : String) :
    Option VMState :=
  match st.frames.getLast? with
  | none => none
  | some frame =>
      let stack_idx := frame.slot + slot
      match st.stack.getLast? with
      | none => none
      | some new_value =>
          let stack := st.stack.dropLast
          match stack.get? stack_idx with
          | none => none
          | some old_value =>
              let causality :=
                (st.causality.record_mutation name old_value new_value none).1
              some { st with stack := stack.set stack_idx new_value,
                             causality := causality }

/-- The `OpCode::TransitionUpvalue` arm: pop the new value, fetch the
current closure's upvalue handle at `slot`, read the old value through
the cell, record the mutation under the name operand, and write the new
value through the cell.  Note that no immutability check appears
anywhere on this path (the compiler's upvalue branch carries a TODO for
it), and an invalid upvalue handle is silently skipped for the write. -/
def VMState.transitionUpvalueStep (st : VMState) (slot : Nat) (name : String) :
    Option VMState :=
  match st.stack.getLast? with
  | none => none
  | some new_value =>
      let stack := st.stack.dropLast
      match st.frames.getLast? with
      | none => none
      | some frame =>
          match st.heap.get_closure frame.closure with
          | none => none
          | some closure =>
              match closure.2.get? slot with
              | none => none
              | some upvalue_handle =>
                  match st.heap.get_upvalue upvalue_handle with
                  | some (.Open s) =>
                      match stack.get? s with
                      | none => none
                      | some old_value =>
                          let causality := (st.causality.record_mutation
                            name old_value new_value none).1
                          some { st with
                            stack := stack.set s new_value,
                            causality := causality }
                  | some (.Closed old_value) =>
                      let causality := (st.causality.record_mutation
                        name old_value new_value none).1
                      let objects := st.heap.objects.set upvalue_handle
                        (some (.Upvalue (.Closed new_value)))
                      some { st with
                        stack := stack
                        causality := causality
                        heap := { st.heap with objects := objects } }
                  | none =>
                      let causality := (st.causality.record_mutation
                        name .Nil new_value none).1
                      some { st with stack := stack, causality := causality }

/-- The `OpCode::Index` arm, on the two popped operands.  An array
element fetch uses `arr.get(i as usize)` and falls back to `Nil`; the
`as usize` cast saturates (negative and NaN indices become `0`). -/
def indexStep (heap : Heap) (array index : Value) : Except ErrorKind Value :=
  match array, index with
  | .Array handle, .Number i =>
      (match heap.get_array handle with
       | some arr => .ok ((arr.get? i.toUsize).getD .Nil)
       | none => .ok .Nil)
  | .String s, .Number i =>
      .ok (((s.toList.get? i.toUsize).map
        (fun c => Value.String (String.mk [c]))).getD .Nil)
  | _, _ => .error (.TypeMismatch "array or string" array.type_name)

/-- The `OpCode::Divide` arm, on the two popped operands: an explicit
`y == 0.0` check raises `DivisionByZero` before any division happens. -/
def divideStep (a b : Value) : Except ErrorKind Value :=
  match a, b with
  | .Number x, .Number y =>
      if SkyNum.ieeeEq y (.finite 0) then .error .DivisionByZero
      else .ok (.Number (x.fdiv y))
  | _, _ =>
      .error (.TypeMismatch "numbers" (a.type_name ++ " and " ++ b.type_name))

/-- `str.repeat(n)`. -/
def strRepeat (s : String) (n : Nat) : String :=
  String.join (List.replicate n s)

/-- `VM::binary_op`: numbers always go through `op`; the string cases
are guarded by the operator name; anything else is a `TypeMismatch`. -/
def binary_op (op : SkyNum → SkyNum → SkyNum) (op_name : String)
    (a b : Value) : Except ErrorKind Value :=
  match a, b with
  | .Number x, .Number y => .ok (.Number (op x y))
  | .String s1, .String s2 =>
      if op_name = "+" then .ok (.String (s1 ++ s2))
      else .error (.TypeMismatch "numbers"
        (a.type_name ++ " and " ++ b.type_name))
  | .String s, .Number n =>
      if op_name = "*" then .ok (.String (strRepeat s n.toUsize))
      else .error (.TypeMismatch "numbers"
        (a.type_name ++ " and " ++ b.type_name))
  | _, _ =>
      .error (.TypeMismatch "numbers" (a.type_name ++ " and " ++ b.type_name))

/-- The `OpCode::Modulo` arm: `self.binary_op(|a, b| a % b, "%")`. -/
def moduloStep (a b : Value) : Except ErrorKind Value :=
  binary_op SkyNum.frem "%" a b

/-- The `OpCode::SetProperty` arm: pop the value, peek the receiver,
insert the field, pop the receiver, push the value. -/
def VMState.setPropertyStep (st : VMState) (name : String) :
    Option (Except ErrorKind VMState) :=
  match st.stack.getLast? with
  | none => none
  | some value =>
      let stack := st.stack.dropLast
      match stack.getLast? with
      | none => none
      | some receiver =>
          match receiver with
          | .Instance handle =>
              let heap := st.heap.set_instance_field handle name value
              some (.ok { st with heap := heap,
                                  stack := stack.dropLast ++ [value] })
          | _ => some (.error (.RuntimeError "Only instances have properties."))

/-! ### Compiler (`src/compiler.rs`): the `Stmt::Transition` arm -/

/-- `Local` from `src/compiler.rs`. -/
structure Local where
  name : String
  depth : Nat
  is_state : Bool
  deriving DecidableEq, Repr

/-- `Compiler::resolve_local`: walk the locals from newest to oldest and
return the index of the first match. -/
def resolve_local (locals : List Local) (name : String) : Option Nat :=
  (locals.enum.reverse.find? (fun p => p.2.name == name)).map (·.1)

/-- The instruction (with operands) that the `Stmt::Transition` arm
emits; name-table indices are replaced by the names they denote. -/
inductive EmittedTransition where
  | transitionLocal (slot : Nat) (name : String)
  | transitionUpvalue (idx : Nat) (name : String)
  | transitionGlobal (name : String)
  deriving DecidableEq, Repr

/-- The `Stmt::Transition` arm of `Compiler::compile_stmt`, after the
value expression has been compiled.  The locals of the current context
and the result of `resolve_upvalue` (a separate mutable traversal of the
enclosing contexts, abstracted here as its returned index) determine the
emitted opcode.  Only the local branch checks `is_state`; the upvalue
branch emits `TransitionUpvalue` with no immutability check (the source
carries a TODO comment for it), and the global branch defers entirely to
the runtime. -/
def compileTransition (locals : List Local) (resolvedUpvalue : Option Nat)
    (name : String) : Except ErrorKind EmittedTransition :=
  match resolve_local locals name with
  | some slot =>
      if !(((locals.get? slot).map Local.is_state).getD false) then
        .error (.ImmutableVariable name)
      else .ok (.transitionLocal slot name)
  | none =>
      match resolvedUpvalue with
      | some idx => .ok (.transitionUpvalue idx name)
      | none => .ok (.transitionGlobal name)

/-! ### The `substr` native (`VM::define_natives`) -/

/-- Result of running a native function body: a value, an error string
(wrapped into `RuntimeError` by the caller), or a Rust panic. -/
inductive NativeOutcome where
  | ok (v : Value)
  | err (msg : String)
  | crash
  deriving DecidableEq, Repr

/-- The arity guard at the top of the `substr` native:
`args.is_empty() || args.len() > 3`. -/
def substrGuard (args : List Value) : Bool :=
  args.isEmpty || args.length > 3

/-- The `substr` native's body.  After the guard, `args[0]` is required
to be a string and `args[1]` a number; the `args[1]` access is a plain
slice index, so a one-argument call reaches it out of bounds (`crash`).
Strings are modelled at the character level (the source slices bytes;
the distinction plays no role in the claims). -/
def substrNative (args : List Value) : NativeOutcome :=
  if substrGuard args then .err "substr() takes 2 or 3 arguments"
  else
    match args.get? 0 with
    | none => .crash
    | some arg0 =>
      match arg0 with
      | .String s =>
          (match args.get? 1 with
           | none => .crash
           | some arg1 =>
             match arg1 with
             | .Number n =>
                 let start := n.toUsize
                 let stopRes : NativeOutcome ⊕ Nat :=
                   if args.length = 3 then
                     match args.get? 2 with
                     | some (.Number m) => .inr m.toUsize
                     | some _ =>
                         .inl (.err "substr() requires a number as third argument")
                     | none => .inl .crash
                   else .inr s.length
                 match stopRes with
                 | .inl out => out
                 | .inr stop =>
                     let stop := min stop s.length
                     let start := min start stop
                     .ok (.String (String.mk
                       ((s.toList.drop start).take (stop - start))))
             | _ => .err "substr() requires a number as second argument")
      | _ => .err "substr() requires a string as first argument"

/-! ### Concrete machine states

Small, fully explicit states used to evaluate the embedded code on
specific inputs. -/

/-- The machine right before `x -> 2` executes inside `inner` in

`fn outer() { let x = 1; fn inner() { x -> 2 } inner() }; outer()`:

object 1 is the (closed) upvalue cell of the immutable `let x`, object 2
the closure of `inner` capturing it, the new value `2` sits on top of
the stack, and the decoded operands are upvalue index `0` and name `x`. -/
def c1State : VMState :=
  { stack := [.Closure 2, .Number (.finite 2)]
    frames := [{ closure := 2, slot := 0 }]
    globals := []
    causality := CausalityLog.new
    heap := { Heap.new with objects :=
      [some (.Function "inner" [] 1),
       some (.Upvalue (.Closed (.Number (.finite 1)))),
       some (.Closure 0 [1])] }
    open_upvalues := []
    chunk_constants := [] }

/-- First call of `fn f() { state i = 0; i -> 1 }`: frame slot 0, the
state local `i` (initialised to `0`) in stack slot 1, and the compiled
transition value `1` on top, about to execute `TransitionLocal 1 "i"`. -/
def c2State0 : VMState :=
  { stack := [.Closure 0, .Number (.finite 0), .Number (.finite 1)]
    frames := [{ closure := 0, slot := 0 }]
    globals := []
    causality := CausalityLog.new
    heap := { Heap.new with objects := [some (.Closure 1 []),
                                        some (.Function "f" [] 0)] }
    open_upvalues := []
    chunk_constants := [] }

/-- After the first `TransitionLocal` of the scenario. -/
def c2State1 : VMState := (c2State0.transitionLocalStep 1 "i").getD c2State0

/-- The machine at the same point inside the *second* call of `f`.  The
opcodes executed in between (`Nil`/`Return` tearing the first frame
down, `Call` pushing the callee again, `Constant` pushing the fresh
`i = 0` and the transition value `1`) only move stack values and never
touch the causality log, so only the stack differs from `c2State1`. -/
def c2State2 : VMState :=
  { c2State1 with
    stack := [.Closure 0, .Number (.finite 0), .Number (.finite 1)] }

/-- After the second `TransitionLocal` of the scenario. -/
def c2State3 : VMState := (c2State2.transitionLocalStep 1 "i").getD c2State2

/-- A machine about to run GC while a closure holding an *open* upvalue
is live on the stack: object 1 is an open upvalue pointing at stack slot
1, object 2 a closure capturing it, and the open-upvalue list holds
handle 1. -/
def c3State : VMState :=
  { stack := [.Closure 2, .Number (.finite 7)]
    frames := [{ closure := 2, slot := 0 }]
    globals := []
    causality := CausalityLog.new
    heap := { Heap.new with
      objects := [some (.Function "f" [] 1),
                  some (.Upvalue (.Open 1)),
                  some (.Closure 0 [1])]
      bytes_allocated := 296 }
    open_upvalues := [1]
    chunk_constants := [] }

/-- `c3State` after `collect_garbage`. -/
def c3After : VMState := c3State.collect_garbage

/-- Heap after `alloc_class("Counter")` then `alloc_instance` on a fresh
heap.  `c4ClassAlloc.2` and `c4InstAlloc.2` are the two handles. -/
def c4ClassAlloc : Heap × Nat := Heap.new.alloc_class "Counter"

/-- The instance allocation of the C4 scenario. -/
def c4InstAlloc : Heap × Nat := c4ClassAlloc.1.alloc_instance c4ClassAlloc.2

/-- The machine right before `c.n = 0` executes `SetProperty "n"`. -/
def c4State : VMState :=
  { stack := [.Instance c4InstAlloc.2, .Number (.finite 0)]
    frames := []
    globals := []
    causality := CausalityLog.new
    heap := c4InstAlloc.1
    open_upvalues := []
    chunk_constants := [] }

/-- `c4State` after the `SetProperty` arm ran (the instance gained the
field `n` without `bytes_allocated` changing). -/
def c4State1 : VMState :=
  match c4State.setPropertyStep "n" with
  | some (.ok st) => st
  | _ => c4State

/-- The same machine after the program dropped every reference to the
instance (the stack has been popped empty), right before GC runs. -/
def c4State2 : VMState := { c4State1 with stack := [] }

/-- A heap whose slot 0 holds the array `[10, 20]`. -/
def c6Heap : Heap :=
  { Heap.new with
    objects := [some (.Array [.Number (.finite 10), .Number (.finite 20)])] }

/-- A fresh heap after `alloc_string("a")`, with the resulting handle
marked (as the mark phase does when some root still references it). -/
def c8Heap : Heap := { (Heap.new.alloc_string "a").1 with marked := [0] }

/-- A straight-line sequence of global `Transition` opcodes on one name,
as the compiler emits for `name -> v₁; name -> v₂; …` at top level. -/
def runTransitions (name : String) (vs : List Value)
    (globals : List (String × Binding)) (log : CausalityLog) :
    Except ErrorKind (List (String × Binding) × CausalityLog) :=
  match vs with
  | [] => .ok (globals, log)
  | v :: rest =>
      match transitionStep globals log name v with
      | .error e => .error e
      | .ok (globals, log) => runTransitions name rest globals log

/-- The shape invariant `record_mutation` maintains from a fresh log:
the next event id equals the number of stored events, every id in the
per-variable index is in range, timestamps never exceed the clock, and
each per-variable history is strictly increasing in timestamps. -/
structure LogOk (log : CausalityLog) : Prop where
  next_id_eq : log.next_id = log.events.length
  ids_lt : ∀ n, ∀ i ∈ (assocLookup log.by_variable n).getD [], i < log.events.length
  ts_le : ∀ e ∈ log.events, e.timestamp ≤ log.clock
  hist_sorted : ∀ n,
    (log.history n).Pairwise (fun a b => a.timestamp < b.timestamp)

/-! ## Theorems -/

/-- `assocLookup` after `assocInsert`. -/
theorem assocLookup_assocInsert {α : Type} (l : List (String × α))
    (k k' : String) (v : α) :
    assocLookup (assocInsert l k v) k' =
      if k = k' then some v else assocLookup l k' := by
  induction l with
  | nil =>
      by_cases h : k = k' <;> simp [assocInsert, assocLookup, h]
  | cons p rest ih =>
      obtain ⟨pk, pv⟩ := p
      by_cases hpk : pk = k
      · subst hpk
        by_cases h : pk = k' <;> simp [assocInsert, assocLookup, h]
      · have hk : ¬(k = pk) := fun hh => hpk hh.symm
        by_cases h : pk = k'
        · subst h
          simp [assocInsert, assocLookup, hpk, hk]
        · simp [assocInsert, assocLookup, hpk, h, ih]

/-- `assocLookup` after `assocPush`. -/
theorem assocLookup_assocPush (l : List (String × List Nat))
    (k k' : String) (i : Nat) :
    assocLookup (assocPush l k i) k' =
      if k = k' then some (((assocLookup l k).getD []) ++ [i])
      else assocLookup l k' := by
  induction l with
  | nil =>
      by_cases h : k = k' <;> simp [assocPush, assocLookup, h]
  | cons p rest ih =>
      obtain ⟨pk, pv⟩ := p
      by_cases hpk : pk = k
      · subst hpk
        by_cases h : pk = k' <;> simp [assocPush, assocLookup, h]
      · have hk : ¬(k = pk) := fun hh => hpk hh.symm
        by_cases h : pk = k'
        · subst h
          simp [assocPush, assocLookup, hpk, hk]
        · simp [assocPush, assocLookup, hpk, h, ih]

/-- A lookup that hits an entry kept by `List.filter` still hits it. -/
theorem assocLookup_filter {α : Type} (l : List (String × α))
    (q : String × α → Bool) (k : String) (v : α)
    (hl : assocLookup l k = some v) (hq : q (k, v) = true) :
    assocLookup (l.filter q) k = some v := by
  induction l with
  | nil => simp [assocLookup] at hl
  | cons p rest ih =>
      obtain ⟨pk, pv⟩ := p
      by_cases hpk : pk = k
      · subst hpk
        simp [assocLookup] at hl
        subst hl
        simp [List.filter, hq, assocLookup]
      · simp [assocLookup, hpk] at hl
        cases hqp : q (pk, pv) <;>
          simp [List.filter, hqp, assocLookup, hpk, ih hl]

/-- C1: for immutable bindings, `SetGlobal` and `Transition` fail with
`ImmutableVariable` leaving the binding untouched, and `TransitionLocal`
on a non-state local is rejected by the compiler — but the
`TransitionUpvalue` arm carries *no* immutability check at all: on the
concrete machine `c1State`, whose upvalue cell stems from a `let`
binding, the arm succeeds (its return type has no error outcome),
overwrites the cell, and records a causality event, contradicting the
claim for the upvalue case. -/
theorem immutable_checks_and_transition_upvalue_gap :
    (∀ (globals : List (String × Binding)) (name : String) (v : Value)
        (b : Binding), assocLookup globals name = some b → b.is_state = false →
        setGlobalStep globals name v = .error (.ImmutableVariable name)) ∧
    (∀ (globals : List (String × Binding)) (log : CausalityLog)
        (name : String) (v : Value) (b : Binding),
        assocLookup globals name = some b → b.is_state = false →
        transitionStep globals log name v = .error (.ImmutableVariable name)) ∧
    (∀ (locals : List Local) (resolvedUpvalue : Option Nat) (name : String)
        (slot : Nat) (lc : Local),
        resolve_local locals name = some slot → locals.get? slot = some lc →
        lc.is_state = false →
        compileTransition locals resolvedUpvalue name =
          .error (.ImmutableVariable name)) ∧
    ((c1State.transitionUpvalueStep 0 "x").isSome = true ∧
     (c1State.transitionUpvalueStep 0 "x").map
        (fun st => st.heap.get_upvalue 1) =
       some (some (.Closed (.Number (.finite 2)))) ∧
     (c1State.transitionUpvalueStep 0 "x").map
        (fun st => st.causality.history "x") =
       some [{ id := 0, var_name := "x",
               old_value := .Number (.finite 1),
               new_value := .Number (.finite 2),
               timestamp := 1, location := none }]) := by
  refine ⟨fun globals name v b hb hs => ?_,
          fun globals log name v b hb hs => ?_,
          fun locals ru name slot lc hr hg hs => ?_, by decide⟩
  · simp [setGlobalStep, hb, hs]
  · simp [transitionStep, hb, hs]
  · rw [List.get?_eq_getElem?] at hg
    simp [compileTransition, hr, hg, hs]

/-- Closed instance of `immutable_checks_and_transition_upvalue_gap`,
discharging each hypothesis on concrete inputs. -/
theorem immutable_checks_witness :
    setGlobalStep [("x", { value := .Nil, is_state := false })] "x" .Nil =
      .error (.ImmutableVariable "x") ∧
    transitionStep [("x", { value := .Nil, is_state := false })]
      CausalityLog.new "x" .Nil = .error (.ImmutableVariable "x") ∧
    compileTransition [{ name := "", depth := 0, is_state := false },
                       { name := "x", depth := 1, is_state := false }]
      none "x" = .error (.ImmutableVariable "x") :=
  ⟨immutable_checks_and_transition_upvalue_gap.1 _ "x" .Nil
      { value := .Nil, is_state := false } (by decide) rfl,
   immutable_checks_and_transition_upvalue_gap.2.1 _ CausalityLog.new "x" .Nil
      { value := .Nil, is_state := false } (by decide) rfl,
   immutable_checks_and_transition_upvalue_gap.2.2.1 _ none "x" 1
      { name := "x", depth := 1, is_state := false } (by decide) (by decide) rfl⟩

/-- C2 counterexample: a state local `i` of a function called twice is
two distinct stack cells sharing one source name; both calls log under
`"i"`, and the second event's old value (`0`) differs from the first
event's new value (`1`), so `history("i")` is not a chain. -/
theorem history_chain_broken_across_cells :
    (c2State0.transitionLocalStep 1 "i").isSome = true ∧
    (c2State2.transitionLocalStep 1 "i").isSome = true ∧
    c2State3.causality.history "i" =
      [{ id := 0, var_name := "i", old_value := .Number (.finite 0),
         new_value := .Number (.finite 1), timestamp := 1, location := none },
       { id := 1, var_name := "i", old_value := .Number (.finite 0),
         new_value := .Number (.finite 1), timestamp := 2, location := none }] ∧
    ¬ List.Chain' (fun a b => b.old_value = a.new_value)
        (c2State3.causality.history "i") := by
  have h : c2State3.causality.history "i" =
      [{ id := 0, var_name := "i", old_value := .Number (.finite 0),
         new_value := .Number (.finite 1), timestamp := 1, location := none },
       { id := 1, var_name := "i", old_value := .Number (.finite 0),
         new_value := .Number (.finite 1), timestamp := 2, location := none }] := by
    decide
  refine ⟨by decide, by decide, h, ?_⟩
  rw [h]
  simp only [List.chain'_cons, List.chain'_singleton, and_true]
  decide

/-- C3: on `c3State` the open upvalue (handle 1) is reachable from the
live closure on the stack and its heap object survives the sweep, yet
`collect_garbage` empties the open-upvalue list entirely — `sweep`
clears the mark set before the VM's `retain(is_marked)` runs — and a
subsequent capture of the same stack slot therefore allocates a fresh
cell (handle 3) instead of sharing cell 1. -/
theorem gc_drops_every_open_upvalue :
    c3State.open_upvalues = [1] ∧
    c3After.heap.objects.get? 1 = some (some (.Upvalue (.Open 1))) ∧
    c3After.open_upvalues = [] ∧
    (c3After.capture_upvalue 1).2 = 3 := by decide

/-- C4: `SetProperty` grows an instance without touching
`bytes_allocated`, and `sweep` subtracts the object's size as recomputed
at sweep time rather than the byte count recorded at allocation; on the
concrete heap of `c4State` the subtraction exceeds everything ever
allocated and the counter drops below zero. -/
theorem sweep_subtracts_grown_size_underflow :
    c4State1.heap.objects.get? c4InstAlloc.2 =
      some (some (.Instance c4ClassAlloc.2 [("n", .Number (.finite 0))])) ∧
    c4State1.heap.bytes_allocated = c4State.heap.bytes_allocated ∧
    c4State2.collect_garbage.heap.bytes_allocated < 0 := by decide

/-- C6 counterexample: the `Index` arm converts the `f64` index with a
saturating `as usize` cast, so the out-of-range index `-1` becomes `0`
and indexing `[10, 20]` with `-1` pushes `10`, not `Nil`. -/
theorem index_negative_yields_first_element :
    indexStep c6Heap (.Array 0) (.Number (.finite (-1))) =
      .ok (.Number (.finite 10)) ∧
    Value.Number (.finite 10) ≠ .Nil := ⟨rfl, by decide⟩

/-- C6 amended: `Index` on an array with any `Number` index never raises
an error; it pushes the element at the saturated cast of the index when
that position exists and `Nil` otherwise.  In particular every index
whose cast is `≥` the length yields `Nil`, but negative (and NaN)
indices cast to `0` and hence yield element 0 of a nonempty array. -/
theorem index_out_of_range_nil :
    ∀ (heap : Heap) (handle : Nat) (i : SkyNum) (arr : List Value),
      heap.get_array handle = some arr →
      (indexStep heap (.Array handle) (.Number i) =
        .ok ((arr.get? i.toUsize).getD .Nil) ∧
       (arr.length ≤ i.toUsize →
        indexStep heap (.Array handle) (.Number i) = .ok .Nil)) := by
  intro heap handle i arr harr
  have hmain : indexStep heap (.Array handle) (.Number i) =
      .ok ((arr.get? i.toUsize).getD .Nil) := by
    simp [indexStep, harr]
  refine ⟨hmain, fun hlen => ?_⟩
  rw [hmain, List.get?_eq_none.mpr hlen]
  rfl

/-- Closed instance of `index_out_of_range_nil` at index 5 on `[10, 20]`. -/
theorem index_out_of_range_nil_witness :
    indexStep c6Heap (.Array 0) (.Number (.finite 5)) =
      .ok ((([Value.Number (.finite 10),
              Value.Number (.finite 20)].get? (SkyNum.finite 5).toUsize)).getD
             .Nil) ∧
    indexStep c6Heap (.Array 0) (.Number (.finite 5)) = .ok .Nil :=
  ⟨(index_out_of_range_nil c6Heap 0 (.finite 5) _ rfl).1,
   (index_out_of_range_nil c6Heap 0 (.finite 5) _ rfl).2 (by decide)⟩

/-- C7 counterexample: NaN is a `Number` the runtime can produce
(`x % 0`), it compares unequal to `0.0`, and `0 / NaN` pushes NaN, not
`0` — so "`0 / n` yields `0` for every `n ≠ 0`" fails at `n = NaN`. -/
theorem divide_zero_by_nan_not_zero :
    SkyNum.frem (.finite 1) (.finite 0) = .nan ∧
    SkyNum.ieeeEq .nan (.finite 0) = false ∧
    divideStep (.Number (.finite 0)) (.Number .nan) = .ok (.Number .nan) ∧
    Value.Number .nan ≠ Value.Number (.finite 0) :=
  ⟨by decide, rfl, rfl, by decide⟩

/-- C7 amended: on two `Number` operands, `Divide` raises
`DivisionByZero` exactly when the right operand compares `== 0.0`;
otherwise it pushes the quotient, and `0 / n = 0` for every *finite*
nonzero `n` (for `n = NaN` the pushed quotient is NaN). -/
theorem divide_zero_check_and_quotient :
    (∀ x y : SkyNum, SkyNum.ieeeEq y (.finite 0) = true →
        divideStep (.Number x) (.Number y) = .error .DivisionByZero) ∧
    (∀ x y : SkyNum, SkyNum.ieeeEq y (.finite 0) = false →
        divideStep (.Number x) (.Number y) = .ok (.Number (x.fdiv y))) ∧
    (∀ q : ℚ, q ≠ 0 → SkyNum.fdiv (.finite 0) (.finite q) = .finite 0) := by
  refine ⟨fun x y h => ?_, fun x y h => ?_, fun q hq => ?_⟩
  · simp [divideStep, h]
  · simp [divideStep, h]
  · simp [SkyNum.fdiv, hq]

/-- Closed instance of `divide_zero_check_and_quotient`. -/
theorem divide_zero_check_witness :
    divideStep (.Number (.finite 1)) (.Number (.finite 0)) =
      .error .DivisionByZero ∧
    divideStep (.Number (.finite 0)) (.Number (.finite 2)) =
      .ok (.Number (SkyNum.fdiv (.finite 0) (.finite 2))) ∧
    SkyNum.fdiv (.finite 0) (.finite 2) = .finite 0 :=
  ⟨divide_zero_check_and_quotient.1 (.finite 1) (.finite 0) (by decide),
   divide_zero_check_and_quotient.2.1 (.finite 0) (.finite 2) (by decide),
   divide_zero_check_and_quotient.2.2 2 (by norm_num)⟩

/-- C9: the `substr` arity guard rejects exactly the calls with zero or
more than three arguments, producing the arity error; a one-argument
call (with a string argument, as required before `args[1]` is reached)
passes the guard and then reads `args[1]` out of bounds — a panic, not
the arity error. -/
theorem substr_guard_iff_and_one_arg_crash :
    (∀ args : List Value,
        substrGuard args = true ↔ (args.length = 0 ∨ 3 < args.length)) ∧
    (∀ args : List Value, substrGuard args = true →
        substrNative args = .err "substr() takes 2 or 3 arguments") ∧
    (∀ s : String, substrNative [.String s] = .crash) := by
  refine ⟨fun args => ?_, fun args h => ?_, fun s => ?_⟩
  · simp [substrGuard, List.isEmpty_iff_length_eq_zero]
  · simp [substrNative, h]
  · rfl

/-- Closed instance of `substr_guard_iff_and_one_arg_crash`. -/
theorem substr_guard_witness :
    substrGuard ([] : List Value) = true ∧
    substrNative [] = .err "substr() takes 2 or 3 arguments" ∧
    substrNative [.String "hello"] = .crash :=
  ⟨(substr_guard_iff_and_one_arg_crash.1 []).mpr (Or.inl rfl),
   substr_guard_iff_and_one_arg_crash.2.1 [] (by decide),
   substr_guard_iff_and_one_arg_crash.2.2 "hello"⟩

/-- `Heap::alloc` never touches the intern table. -/
theorem alloc_interned_strings (h : Heap) (obj : Object) :
    (h.alloc obj).1.interned_strings = h.interned_strings := by
  unfold Heap.alloc
  cases h.free_list <;> rfl

/-- C8: `alloc_string` called twice with the same string returns the
same handle, the second call leaving the heap untouched; and across a
collection in which the interned handle was marked (at least one
reference survived), `sweep` retains the intern entry and a later
`alloc_string` still returns the original handle without allocating. -/
theorem alloc_string_interning :
    (∀ (h : Heap) (s : String),
        ((h.alloc_string s).1.alloc_string s).2 = (h.alloc_string s).2 ∧
        ((h.alloc_string s).1.alloc_string s).1 = (h.alloc_string s).1) ∧
    (∀ (h : Heap) (s : String) (handle : Nat),
        assocLookup h.interned_strings s = some handle →
        h.marked.contains handle = true →
        (assocLookup h.sweep.interned_strings s = some handle ∧
         h.sweep.alloc_string s = (h.sweep, handle))) := by
  constructor
  · intro h s
    unfold Heap.alloc_string
    cases hl : assocLookup h.interned_strings s with
    | some handle => simp [hl]
    | none =>
        have h2 : assocLookup
            (assocInsert (h.alloc (.String s)).1.interned_strings s
              (h.alloc (.String s)).2) s = some (h.alloc (.String s)).2 := by
          rw [assocLookup_assocInsert]
          simp
        simp [hl, h2]
  · intro h s handle hl hm
    have hfil : h.sweep.interned_strings =
        h.interned_strings.filter (fun p => h.marked.contains p.2) := rfl
    have hk : assocLookup h.sweep.interned_strings s = some handle := by
      rw [hfil]
      exact assocLookup_filter _ _ _ _ hl hm
    refine ⟨hk, ?_⟩
    unfold Heap.alloc_string
    simp [hk]

/-- Closed instance of `alloc_string_interning` on the marked heap
`c8Heap`. -/
theorem alloc_string_interning_witness :
    assocLookup c8Heap.sweep.interned_strings "a" = some 0 ∧
    c8Heap.sweep.alloc_string "a" = (c8Heap.sweep, 0) :=
  alloc_string_interning.2 c8Heap "a" 0 (by decide) (by decide)

/-- C10: `Modulo` goes through `binary_op`, whose `Number × Number` case
unconditionally pushes the operator result — no `DivisionByZero` check
exists on this path — and the IEEE remainder with right operand `0` is
NaN. -/
theorem modulo_never_errors_nan_on_zero :
    (∀ x y : SkyNum,
        moduloStep (.Number x) (.Number y) = .ok (.Number (x.frem y))) ∧
    (∀ x : SkyNum, SkyNum.frem x (.finite 0) = .nan) := by
  constructor
  · intro x y; rfl
  · intro x; cases x <;> simp [SkyNum.frem]

/-- Every history event is a stored event. -/
theorem mem_of_mem_history {log : CausalityLog} {n : String}
    {e : MutationEvent} (he : e ∈ log.history n) : e ∈ log.events := by
  unfold CausalityLog.history at he
  obtain ⟨i, -, hi⟩ := List.mem_filterMap.mp he
  exact List.get?_mem hi

/-- Appending one element to the store does not change how in-range ids
resolve. -/
theorem filterMap_get?_append {α : Type} (l : List α) (a : α)
    (ids : List Nat) (h : ∀ i ∈ ids, i < l.length) :
    ids.filterMap (fun i => (l ++ [a]).get? i) =
      ids.filterMap (fun i => l.get? i) := by
  induction ids with
  | nil => rfl
  | cons i rest ih =>
      simp only [List.filterMap_cons]
      rw [List.get?_append (h i (List.mem_cons_self i rest)),
        ih (fun j hj => h j (List.mem_cons_of_mem i hj))]

/-- `record_mutation` appends exactly one event to the history of its
variable and leaves every other history unchanged. -/
theorem history_record_mutation (log : CausalityLog)
    (hid : log.next_id = log.events.length)
    (hids : ∀ n, ∀ i ∈ (assocLookup log.by_variable n).getD [],
      i < log.events.length)
    (name : String) (old new : Value) (loc : Option String) (n : String) :
    (log.record_mutation name old new loc).1.history n =
      log.history n ++
        (if n = name then
          [{ id := log.next_id, var_name := name, old_value := old,
             new_value := new, timestamp := log.clock + 1, location := loc }]
         else []) := by
  unfold CausalityLog.record_mutation CausalityLog.history
  simp only
  rw [assocLookup_assocPush]
  by_cases hn : name = n
  · subst hn
    simp only [if_pos rfl, if_true, Option.getD_some]
    rw [List.filterMap_append,
      filterMap_get?_append _ _ _ (hids name), hid,
      List.filterMap_cons]
    rw [List.get?_concat_length]
    rfl
  · have hn' : ¬(n = name) := fun hh => hn hh.symm
    simp only [if_neg hn, if_neg hn', List.append_nil]
    exact filterMap_get?_append _ _ _ (hids n)

/-- `LogOk` holds of a fresh log. -/
theorem logOk_new : LogOk CausalityLog.new := by
  refine ⟨rfl, ?_, ?_, ?_⟩
  · intro n i hi
    simp [CausalityLog.new, assocLookup] at hi
  · intro e he
    simp [CausalityLog.new] at he
  · intro n
    simp [CausalityLog.history, CausalityLog.new, assocLookup]

/-- `record_mutation` preserves `LogOk`. -/
theorem logOk_record (log : CausalityLog) (hok : LogOk log) (name : String)
    (old new : Value) (loc : Option String) :
    LogOk (log.record_mutation name old new loc).1 := by
  obtain ⟨hid, hids, hts, hsort⟩ := hok
  refine ⟨?_, ?_, ?_, ?_⟩
  · simp [CausalityLog.record_mutation, hid]
  · intro n i hi
    simp only [CausalityLog.record_mutation] at hi ⊢
    rw [assocLookup_assocPush] at hi
    simp only [List.length_append, List.length_cons, List.length_nil]
    by_cases hn : name = n
    · rw [if_pos hn] at hi
      simp only [Option.getD_some] at hi
      rcases List.mem_append.mp hi with h1 | h2
      · exact Nat.lt_succ_of_lt (hids name i (hn ▸ h1))
      · simp only [List.mem_singleton] at h2
        subst h2
        rw [hid]
        exact Nat.lt_succ_self _
    · rw [if_neg hn] at hi
      exact Nat.lt_succ_of_lt (hids n i hi)
  · intro e he
    simp only [CausalityLog.record_mutation, List.mem_append,
      List.mem_singleton] at he
    rcases he with he | he
    · exact le_trans (hts e he) (Nat.le_succ _)
    · subst he
      exact le_refl _
  · intro n
    rw [history_record_mutation log hid hids]
    by_cases hn : n = name
    · rw [if_pos hn]
      refine List.pairwise_append.mpr ⟨hsort n, List.pairwise_singleton _ _, ?_⟩
      intro a ha b hb
      simp only [List.mem_singleton] at hb
      subst hb
      have hle := hts a (mem_of_mem_history ha)
      show a.timestamp < log.clock + 1
      omega
    · rw [if_neg hn, List.append_nil]
      exact hsort n

/-- `buildLog` always satisfies `LogOk`. -/
theorem logOk_buildLog (ms : List (String × Value × Value)) :
    LogOk (buildLog ms) := by
  suffices h : ∀ (l : List (String × Value × Value)) (log : CausalityLog),
      LogOk log →
      LogOk (l.foldl
        (fun log m => (log.record_mutation m.1 m.2.1 m.2.2 none).1) log) by
    exact h ms CausalityLog.new logOk_new
  intro l
  induction l with
  | nil => intro log hok; exact hok
  | cons m rest ih =>
      intro log hok
      exact ih _ (logOk_record log hok m.1 m.2.1 m.2.2 none)

/-- Along any straight-line run of global `Transition`s on one state
binding, every transition succeeds and the history of the name remains
a chain (each event's old value is the previous event's new value). -/
theorem runTransitions_ok_chain (name : String) :
    ∀ (vs : List Value) (g : List (String × Binding)) (log : CausalityLog)
      (cur : Value),
      assocLookup g name = some { value := cur, is_state := true } →
      LogOk log →
      List.Chain' (fun a b => b.old_value = a.new_value) (log.history name) →
      (∀ e, (log.history name).getLast? = some e → e.new_value = cur) →
      ∃ g' log', runTransitions name vs g log = .ok (g', log') ∧
        List.Chain' (fun a b => b.old_value = a.new_value)
          (log'.history name) := by
  intro vs
  induction vs with
  | nil =>
      intro g log cur hg hok hch hlast
      exact ⟨g, log, rfl, hch⟩
  | cons v rest ih =>
      intro g log cur hg hok hch hlast
      have hstep : transitionStep g log name v =
          .ok (assocInsert g name { value := v, is_state := true },
               (log.record_mutation name cur v none).1) := by
        simp [transitionStep, hg]
      have hhist : (log.record_mutation name cur v none).1.history name =
          log.history name ++
            [{ id := log.next_id, var_name := name, old_value := cur,
               new_value := v, timestamp := log.clock + 1,
               location := none }] := by
        rw [history_record_mutation log hok.next_id_eq hok.ids_lt,
          if_pos rfl]
      have hg' : assocLookup
          (assocInsert g name { value := v, is_state := true }) name =
          some { value := v, is_state := true } := by
        rw [assocLookup_assocInsert]
        simp
      have hch' : List.Chain' (fun a b => b.old_value = a.new_value)
          ((log.record_mutation name cur v none).1.history name) := by
        rw [hhist]
        refine List.Chain'.append hch (List.chain'_singleton _) ?_
        intro x hx y hy
        simp only [List.head?_cons, Option.mem_def, Option.some.injEq] at hy
        subst hy
        exact (hlast x hx).symm
      have hlast' : ∀ e,
          ((log.record_mutation name cur v none).1.history name).getLast? =
            some e → e.new_value = v := by
        intro e he
        rw [hhist, List.getLast?_concat] at he
        cases he
        rfl
      obtain ⟨g', log', hrun, hchain⟩ :=
        ih _ _ _ hg' (logOk_record log hok name cur v none) hch' hlast'
      exact ⟨g', log', by simp only [runTransitions, hstep]; exact hrun,
             hchain⟩

/-- C2 amended: the chain property does hold whenever all mutations of a
name go through a single cell — here, a single global state binding
mutated by `Transition` opcodes: every run succeeds and `history(name)`
chains.  (`history_chain_broken_across_cells` shows it fails when two
distinct cells — a state local of a function called twice — share the
name.) -/
theorem single_cell_history_chains (name : String) (init : Value)
    (vs : List Value) :
    ∃ globals log,
      runTransitions name vs [(name, { value := init, is_state := true })]
        CausalityLog.new = .ok (globals, log) ∧
      List.Chain' (fun a b => b.old_value = a.new_value)
        (log.history name) := by
  refine runTransitions_ok_chain name vs _ _ init ?_ logOk_new ?_ ?_
  · simp [assocLookup]
  · simp [CausalityLog.history, CausalityLog.new, assocLookup]
  · intro e he
    simp [CausalityLog.history, CausalityLog.new, assocLookup] at he

/-- The `value_at` scan loop returns the last event with
`timestamp ≤ t` (falling back to its accumulator) whenever the list is
strictly increasing in timestamps. -/
theorem valueAtLoop_eq (t : Nat) :
    ∀ (l : List MutationEvent) (acc : Option Value),
      l.Pairwise (fun a b => a.timestamp < b.timestamp) →
      valueAtLoop t l acc =
        (match (l.filter (fun e => e.timestamp ≤ t)).getLast? with
         | some e => some e.new_value
         | none => acc) := by
  intro l
  induction l with
  | nil => intro acc _; rfl
  | cons e rest ih =>
      intro acc hp
      have hall := (List.pairwise_cons.mp hp).1
      have hrest := (List.pairwise_cons.mp hp).2
      by_cases ht : e.timestamp ≤ t
      · simp only [valueAtLoop, if_pos ht]
        rw [ih _ hrest,
          List.filter_cons_of_pos (by simpa using ht)]
        cases hf : rest.filter (fun e => decide (e.timestamp ≤ t)) with
        | nil => rfl
        | cons y ys =>
            rw [List.getLast?_cons_cons]
            cases hz : (y :: ys).getLast? with
            | none => simp at hz
            | some z => rfl
      · simp only [valueAtLoop, if_neg ht]
        have hnil : (e :: rest).filter (fun e => decide (e.timestamp ≤ t))
            = [] := by
          rw [List.filter_eq_nil]
          intro a ha
          rcases List.mem_cons.mp ha with rfl | ha
          · simpa using ht
          · have := hall a ha
            simp only [decide_eq_true_eq]
            omega
        rw [hnil]
        rfl

/-- `value_at` agrees with the specification whenever the history is
strictly increasing in timestamps. -/
theorem value_at_eq_spec_of_sorted (log : CausalityLog) (n : String)
    (t : Nat)
    (hs : (log.history n).Pairwise (fun a b => a.timestamp < b.timestamp)) :
    log.value_at n t = valueAtSpec log n t := by
  unfold CausalityLog.value_at valueAtSpec
  cases hh : log.history n with
  | nil => rfl
  | cons x xs =>
      rw [hh] at hs
      simp only [List.isEmpty_cons, Bool.false_eq_true, if_false]
      rw [valueAtLoop_eq t _ none hs]
      cases hfl : ((x :: xs).filter (fun e => decide (e.timestamp ≤ t))).getLast? with
      | some e => rfl
      | none => rfl

/-- C5: over every causality log the runtime can build (an arbitrary
sequence of `record_mutation` calls from a fresh log), `value_at(n, t)`
returns the new value of the last event for `n` with `timestamp ≤ t`;
if there is none but the history is nonempty (its first event is later
than `t`), the first event's old value; and `none` when `n` has no
history. -/
theorem value_at_matches_spec (ms : List (String × Value × Value))
    (n : String) (t : Nat) :
    (buildLog ms).value_at n t = valueAtSpec (buildLog ms) n t :=
  value_at_eq_spec_of_sorted _ _ _ ((logOk_buildLog ms).hist_sorted n)

end SkyHetu
